import Mathlib

/-!
Verification of the AI-query-solver frontend core.

This file gives a shallow embedding, in Lean, of the three pieces of the
repository that carry non-trivial logic, and proves the specified properties
about them:

* the performance aggregator of `frontend/src/components/AnalyticsCharts.tsx`
  (histogram buckets and scalar statistics over query-execution log records);
* the narrative classifier `parseAnalysis` of
  `frontend/src/components/AnalysisResult.tsx` (line-oriented keyword/bullet
  scan producing categorized sections);
* the conversation session of the chat component (`ChatArea`): message
  timeline, single-flight submission discipline, success/failure response
  handling, and the graph/query-id artifact correlation.

JavaScript strings are modelled as `List Char` where the character-level
behaviour matters (the classifier) and as Lean `String` elsewhere; JS numbers
are modelled as rationals (they are used only with `+`, `/`, `max` and order
comparisons in the embedded code).
-/

namespace AIQuerySolver

/-- One historical query-execution record, following the `LogEntry` interface
of `AnalyticsCharts.tsx`: `timestamp`, `exec_time_ms`, `query`. -/
structure LogEntry where
  timestamp : String
  exec_time_ms : ℚ
  query : String
deriving DecidableEq

/-- The four fixed histogram buckets built by `AnalyticsCharts`
(the `performanceRanges` array): counts for the ranges 0-10ms, 10-50ms,
50-100ms and 100ms+. -/
structure PerformanceRanges where
  c0_10 : Nat
  c10_50 : Nat
  c50_100 : Nat
  c100plus : Nat
deriving DecidableEq

/-- One step of the `logs.forEach` bucket-assignment loop of
`AnalyticsCharts.tsx`: an if/else-if chain with inclusive upper edges,
stopping at the first match. -/
def bucketStep (r : PerformanceRanges) (l : LogEntry) : PerformanceRanges :=
  if l.exec_time_ms ≤ 10 then { r with c0_10 := r.c0_10 + 1 }
  else if l.exec_time_ms ≤ 50 then { r with c10_50 := r.c10_50 + 1 }
  else if l.exec_time_ms ≤ 100 then { r with c50_100 := r.c50_100 + 1 }
  else { r with c100plus := r.c100plus + 1 }

/-- The bucket counts accumulated over the whole log list, as in
`AnalyticsCharts.tsx` (all four counters start at 0). -/
def performanceRanges (logs : List LogEntry) : PerformanceRanges :=
  logs.foldl bucketStep ⟨0, 0, 0, 0⟩

/-- The `avgTime` statistic:
`logs.reduce((sum, log) => sum + log.exec_time_ms, 0) / logs.length`. -/
def avgTime (logs : List LogEntry) : ℚ :=
  (logs.foldl (fun sum l => sum + l.exec_time_ms) 0) / (logs.length : ℚ)

/-- The `maxTime` statistic: `Math.max(...logs.map(log => log.exec_time_ms))`.
On an empty list JS yields -Infinity, which has no rational counterpart,
hence the `Option`; the claims only evaluate it on nonempty input. -/
def maxTime (logs : List LogEntry) : Option ℚ :=
  (logs.map (fun l => l.exec_time_ms)).max?

/-- The `slowQueries` statistic:
`logs.filter(log => log.exec_time_ms > 100).length`. -/
def slowQueries (logs : List LogEntry) : Nat :=
  (logs.filter (fun l => decide (100 < l.exec_time_ms))).length

/-- Characterization of the bucket fold: starting from an arbitrary
accumulator, each counter grows by the number of entries in its
(first-match, inclusive-upper-edge) range. -/
theorem bucketFoldl_counts (logs : List LogEntry) (r : PerformanceRanges) :
    logs.foldl bucketStep r =
      ⟨r.c0_10 + logs.countP (fun l => decide (l.exec_time_ms ≤ 10)),
       r.c10_50 + logs.countP
         (fun l => (decide (10 < l.exec_time_ms) && decide (l.exec_time_ms ≤ 50))),
       r.c50_100 + logs.countP
         (fun l => (decide (50 < l.exec_time_ms) && decide (l.exec_time_ms ≤ 100))),
       r.c100plus + logs.countP (fun l => decide (100 < l.exec_time_ms))⟩ := by
  induction logs generalizing r with
  | nil => simp [List.countP_nil]
  | cons a t ih =>
    simp only [List.foldl_cons, List.countP_cons, ih]
    by_cases h1 : a.exec_time_ms ≤ 10
    · have h2 : ¬ (10 : ℚ) < a.exec_time_ms := not_lt.mpr h1
      have h3 : ¬ (50 : ℚ) < a.exec_time_ms := not_lt.mpr (by linarith)
      have h4 : ¬ (100 : ℚ) < a.exec_time_ms := not_lt.mpr (by linarith)
      simp [bucketStep, h1, h2, h3, h4]
      omega
    · by_cases h2 : a.exec_time_ms ≤ 50
      · have h1' : (10 : ℚ) < a.exec_time_ms := not_le.mp h1
        have h3 : ¬ (50 : ℚ) < a.exec_time_ms := not_lt.mpr h2
        have h4 : ¬ (100 : ℚ) < a.exec_time_ms := not_lt.mpr (by linarith)
        simp [bucketStep, h1, h1', h2, h3, h4]
        omega
      · by_cases h3 : a.exec_time_ms ≤ 100
        · have h2' : (50 : ℚ) < a.exec_time_ms := not_le.mp h2
          have h4 : ¬ (100 : ℚ) < a.exec_time_ms := not_lt.mpr h3
          simp [bucketStep, h1, h2, h2', h3, h4]
          omega
        · have h4 : (100 : ℚ) < a.exec_time_ms := not_le.mp h3
          have h10 : ¬ a.exec_time_ms ≤ 10 := h1
          simp [bucketStep, h1, h2, h3, h4, not_le.mp h1]
          omega

/-- Each log entry makes exactly one of the four range predicates true, so
the four per-range counts add up to the length of the list. -/
theorem countP_ranges_sum (logs : List LogEntry) :
    logs.countP (fun l => decide (l.exec_time_ms ≤ 10)) +
    logs.countP (fun l => (decide (10 < l.exec_time_ms) && decide (l.exec_time_ms ≤ 50))) +
    logs.countP
      (fun l => (decide (50 < l.exec_time_ms) && decide (l.exec_time_ms ≤ 100))) +
    logs.countP (fun l => decide (100 < l.exec_time_ms)) = logs.length := by
  induction logs with
  | nil => simp [List.countP_nil]
  | cons a t ih =>
    simp only [List.countP_cons, List.length_cons]
    by_cases h1 : a.exec_time_ms ≤ 10
    · have h2 : ¬ (10 : ℚ) < a.exec_time_ms := not_lt.mpr h1
      have h3 : ¬ (50 : ℚ) < a.exec_time_ms := not_lt.mpr (by linarith)
      have h4 : ¬ (100 : ℚ) < a.exec_time_ms := not_lt.mpr (by linarith)
      simp [h1, h2, h3, h4]
      omega
    · by_cases h2 : a.exec_time_ms ≤ 50
      · have h1' : (10 : ℚ) < a.exec_time_ms := not_le.mp h1
        have h3 : ¬ (50 : ℚ) < a.exec_time_ms := not_lt.mpr h2
        have h4 : ¬ (100 : ℚ) < a.exec_time_ms := not_lt.mpr (by linarith)
        simp [h1, h1', h2, h3, h4]
        omega
      · by_cases h3 : a.exec_time_ms ≤ 100
        · have h2' : (50 : ℚ) < a.exec_time_ms := not_le.mp h2
          have h4 : ¬ (100 : ℚ) < a.exec_time_ms := not_lt.mpr h3
          simp [h1, h2, h2', h3, h4]
          omega
        · have h4 : (100 : ℚ) < a.exec_time_ms := not_le.mp h3
          simp [h1, h2, h3, h4]
          omega

/-- C7: every log entry is assigned to exactly one of the four fixed buckets
by a first-match rule with inclusive upper edges: the four counters count
exactly the (pairwise disjoint, jointly exhaustive) ranges `≤ 10`,
`10 < _ ≤ 50`, `50 < _ ≤ 100` and `> 100`, and the four bucket counts sum
exactly to the number of entries.  In particular an entry of exactly 10ms is
counted in the 0-10ms bucket and one of exactly 100ms in the 50-100ms
bucket. -/
theorem buckets_partition_and_sum (logs : List LogEntry) ( _hne : logs ≠ []) :
    (performanceRanges logs).c0_10
        = logs.countP (fun l => decide (l.exec_time_ms ≤ 10)) ∧
    (performanceRanges logs).c10_50
        = logs.countP
            (fun l => (decide (10 < l.exec_time_ms) && decide (l.exec_time_ms ≤ 50))) ∧
    (performanceRanges logs).c50_100
        = logs.countP
            (fun l => (decide (50 < l.exec_time_ms) && decide (l.exec_time_ms ≤ 100))) ∧
    (performanceRanges logs).c100plus
        = logs.countP (fun l => decide (100 < l.exec_time_ms)) ∧
    (performanceRanges logs).c0_10 + (performanceRanges logs).c10_50 +
      (performanceRanges logs).c50_100 + (performanceRanges logs).c100plus
        = logs.length ∧
    bucketStep ⟨0, 0, 0, 0⟩ { timestamp := "t", exec_time_ms := 10, query := "q" }
        = ⟨1, 0, 0, 0⟩ ∧
    bucketStep ⟨0, 0, 0, 0⟩ { timestamp := "t", exec_time_ms := 100, query := "q" }
        = ⟨0, 0, 1, 0⟩ := by
  have h := bucketFoldl_counts logs ⟨0, 0, 0, 0⟩
  have hsum := countP_ranges_sum logs
  simp only [performanceRanges, h]
  refine ⟨by simp, by simp, by simp, by simp, by simpa using hsum, by decide, by decide⟩

/-- Concrete two-entry log list used to witness `buckets_partition_and_sum`. -/
def wlogsC7 : List LogEntry :=
  [{ timestamp := "t1", exec_time_ms := 10, query := "q1" },
   { timestamp := "t2", exec_time_ms := 100, query := "q2" }]

/-- Witness for C7 at the concrete list `wlogsC7`. -/
theorem buckets_partition_and_sum_witness :
    wlogsC7 ≠ [] ∧
    ((performanceRanges wlogsC7).c0_10
        = wlogsC7.countP (fun l => decide (l.exec_time_ms ≤ 10)) ∧
    (performanceRanges wlogsC7).c10_50
        = wlogsC7.countP
            (fun l => (decide (10 < l.exec_time_ms) && decide (l.exec_time_ms ≤ 50))) ∧
    (performanceRanges wlogsC7).c50_100
        = wlogsC7.countP
            (fun l => (decide (50 < l.exec_time_ms) && decide (l.exec_time_ms ≤ 100))) ∧
    (performanceRanges wlogsC7).c100plus
        = wlogsC7.countP (fun l => decide (100 < l.exec_time_ms)) ∧
    (performanceRanges wlogsC7).c0_10 + (performanceRanges wlogsC7).c10_50 +
      (performanceRanges wlogsC7).c50_100 + (performanceRanges wlogsC7).c100plus
        = wlogsC7.length ∧
    bucketStep ⟨0, 0, 0, 0⟩ { timestamp := "t", exec_time_ms := 10, query := "q" }
        = ⟨1, 0, 0, 0⟩ ∧
    bucketStep ⟨0, 0, 0, 0⟩ { timestamp := "t", exec_time_ms := 100, query := "q" }
        = ⟨0, 0, 1, 0⟩) :=
  ⟨by decide, buckets_partition_and_sum wlogsC7 (by decide)⟩

/-- The example log list of the spec, with execution times 5, 30, 75, 150. -/
def exampleLogs : List LogEntry :=
  [{ timestamp := "t1", exec_time_ms := 5, query := "q1" },
   { timestamp := "t2", exec_time_ms := 30, query := "q2" },
   { timestamp := "t3", exec_time_ms := 75, query := "q3" },
   { timestamp := "t4", exec_time_ms := 150, query := "q4" }]

/-- C8: on the example input with execution times 5, 30, 75 and 150, the
bucket counts are 1/1/1/1, the average is 65, the maximum is 150 and there
is exactly one slow query. -/
theorem analytics_example :
    performanceRanges exampleLogs = ⟨1, 1, 1, 1⟩ ∧
    avgTime exampleLogs = 65 ∧
    maxTime exampleLogs = some 150 ∧
    slowQueries exampleLogs = 1 := by
  refine ⟨by decide, ?_, by decide, by decide⟩
  norm_num [avgTime, exampleLogs]

/-- C9: the count of the "100ms+" bucket always equals the `slowQueries`
statistic (entries with execution time strictly above 100ms), although the
two are computed by independent passes over the log list. -/
theorem bucket100plus_eq_slowQueries (logs : List LogEntry) :
    (performanceRanges logs).c100plus = slowQueries logs := by
  have h := bucketFoldl_counts logs ⟨0, 0, 0, 0⟩
  simp only [performanceRanges, h, slowQueries]
  simp [List.countP_eq_length_filter]

/-! ### Narrative classifier: `parseAnalysis` of `AnalysisResult.tsx`

JS strings are modelled as `List Char` (one element per UTF-16 code unit;
every character appearing in the source is in the basic plane, where the two
notions agree). -/

/-- JS `line.trim()`: remove leading and trailing whitespace. -/
def trimChars (l : List Char) : List Char :=
  ((l.dropWhile Char.isWhitespace).reverse.dropWhile Char.isWhitespace).reverse

/-- JS `a.startsWith(p)` (first argument is the candidate leading segment). -/
def startsWithL : List Char → List Char → Bool
  | [], _ => true
  | _ :: _, [] => false
  | p :: ps, c :: cs => p == c && startsWithL ps cs

/-- JS `hay.includes(needle)`: the needle occurs contiguously in the hay. -/
def includesL (needle : List Char) : List Char → Bool
  | [] => startsWithL needle []
  | c :: cs => startsWithL needle (c :: cs) || includesL needle cs

/-- JS `s.toLowerCase()` (character-wise; all the trigger keywords are
ASCII, where `Char.toLower` agrees with JS). -/
def lowerChars (l : List Char) : List Char := l.map Char.toLower

/-- Helper for JS `text.split(sep)`: `cur` holds the (reversed) characters of
the segment being accumulated. -/
def splitAux : List Char → List Char → List (List Char)
  | cur, [] => [cur.reverse]
  | cur, c :: cs =>
    if c = '\n' then cur.reverse :: splitAux [] cs else splitAux (c :: cur) cs

/-- JS `text.split('\n')`. -/
def splitOnNl (text : List Char) : List (List Char) := splitAux [] text

/-- The current-section cursor of `parseAnalysis` (`currentSection`),
initialized to `summary`. -/
inductive Cursor
  | summary
  | optimizations
  | warnings
  | recommendations
deriving DecidableEq

/-- The `sections` record built by `parseAnalysis`. -/
structure AnalysisSections where
  summary : List Char
  optimizations : List (List Char)
  warnings : List (List Char)
  recommendations : List (List Char)
deriving DecidableEq

/-- The keyword if/else-if chain of `parseAnalysis`, run on the trimmed line:
"optimization"/"optimize" move the cursor to `optimizations`, else
"warning"/"caution" to `warnings`, else "recommend"/"suggest" to
`recommendations`; otherwise the cursor is unchanged. -/
def updateCursor (cur : Cursor) (tl : List Char) : Cursor :=
  let low := lowerChars tl
  if includesL "optimization".toList low || includesL "optimize".toList low then
    Cursor.optimizations
  else if includesL "warning".toList low || includesL "caution".toList low then
    Cursor.warnings
  else if includesL "recommend".toList low || includesL "suggest".toList low then
    Cursor.recommendations
  else cur

/-- The second bullet literal of the source,
`trimmedLine.startsWith('â€¢ ')`: byte-for-byte the source file holds the
three characters U+00E2, U+20AC, U+00A2 (a mojibake rendering of a bullet
glyph) followed by a space — four UTF-16 code units in the JS literal. -/
def glyphMarker : List Char := [Char.ofNat 0xE2, Char.ofNat 0x20AC, Char.ofNat 0xA2, ' ']

/-- The bullet test of `parseAnalysis`:
`trimmedLine.startsWith('- ') || trimmedLine.startsWith('â€¢ ')`. -/
def isBulletLine (tl : List Char) : Bool :=
  startsWithL ['-', ' '] tl || startsWithL glyphMarker tl

/-- The body of the `lines.forEach` loop of `parseAnalysis`: update the
cursor from the keywords, then either append the bullet content
(`trimmedLine.substring(2)`) to the cursor's list, or accumulate the line
into the summary. -/
def lineStep (st : Cursor × AnalysisSections) (line : List Char) :
    Cursor × AnalysisSections :=
  let tl := trimChars line
  let cur := updateCursor st.1 tl
  let secs := st.2
  if isBulletLine tl then
    let cleanLine := tl.drop 2
    if cur = Cursor.optimizations then
      (cur, { secs with optimizations := secs.optimizations ++ [cleanLine] })
    else if cur = Cursor.warnings then
      (cur, { secs with warnings := secs.warnings ++ [cleanLine] })
    else if cur = Cursor.recommendations then
      (cur, { secs with recommendations := secs.recommendations ++ [cleanLine] })
    else (cur, secs)
  else if cur = Cursor.summary ∧ 0 < tl.length then
    (cur, { secs with
             summary := secs.summary
               ++ (if secs.summary.isEmpty then [] else [' ']) ++ tl })
  else (cur, secs)

/-- The classifier `parseAnalysis` of `AnalysisResult.tsx`: split into lines,
drop whitespace-only lines, run the cursor/bullet scan, and fall back to the
whole original text as summary when all three lists stayed empty. -/
def parseAnalysis (text : List Char) : AnalysisSections :=
  let lines := (splitOnNl text).filter (fun l => !(trimChars l).isEmpty)
  let res := lines.foldl lineStep (Cursor.summary, ⟨[], [], [], []⟩)
  let secs := res.2
  if secs.optimizations.isEmpty && secs.warnings.isEmpty
      && secs.recommendations.isEmpty then
    { secs with summary := text }
  else secs

/-- The six trigger keywords of the classifier. -/
def triggerKeywords : List (List Char) :=
  ["optimization".toList, "optimize".toList, "warning".toList,
   "caution".toList, "recommend".toList, "suggest".toList]

theorem startsWithL_append_right (p l t : List Char)
    (h : startsWithL p l = true) : startsWithL p (l ++ t) = true := by
  induction p generalizing l with
  | nil => simp [startsWithL]
  | cons a ps ih =>
    cases l with
    | nil => simp [startsWithL] at h
    | cons c cs =>
      simp only [startsWithL, Bool.and_eq_true] at h
      simp only [List.cons_append, startsWithL, Bool.and_eq_true]
      exact ⟨h.1, ih cs h.2⟩

theorem includesL_nil_needle (h : List Char) : includesL [] h = true := by
  cases h <;> simp [includesL, startsWithL]

theorem includesL_append_left (n x h : List Char)
    (hh : includesL n h = true) : includesL n (x ++ h) = true := by
  induction x with
  | nil => simpa using hh
  | cons a xs ih => simp only [List.cons_append, includesL, Bool.or_eq_true]; exact Or.inr ih

theorem includesL_append_right (n h y : List Char)
    (hh : includesL n h = true) : includesL n (h ++ y) = true := by
  induction h with
  | nil =>
    simp only [includesL] at hh
    cases n with
    | nil => exact includesL_nil_needle y
    | cons a as => simp [startsWithL] at hh
  | cons c cs ih =>
    simp only [includesL, Bool.or_eq_true] at hh
    rcases hh with hh | hh
    · have := startsWithL_append_right n (c :: cs) y hh
      simp only [List.cons_append, includesL, Bool.or_eq_true]
      exact Or.inl (by simpa using this)
    · simp only [List.cons_append, includesL, Bool.or_eq_true]
      exact Or.inr (ih hh)

theorem includesL_of_parts (n x h y : List Char)
    (hh : includesL n h = true) : includesL n (x ++ h ++ y) = true := by
  rw [List.append_assoc]
  exact includesL_append_left n x (h ++ y) (includesL_append_right n h y hh)

/-- The trimmed line is a contiguous segment of the line. -/
theorem trimChars_decomp (l : List Char) :
    ∃ x y, l = x ++ trimChars l ++ y := by
  refine ⟨l.takeWhile Char.isWhitespace,
    ((l.dropWhile Char.isWhitespace).reverse.takeWhile Char.isWhitespace).reverse, ?_⟩
  have h2 : (l.dropWhile Char.isWhitespace).reverse
      = (l.dropWhile Char.isWhitespace).reverse.takeWhile Char.isWhitespace
        ++ (l.dropWhile Char.isWhitespace).reverse.dropWhile Char.isWhitespace :=
    (List.takeWhile_append_dropWhile _ _).symm
  have h3 : l.dropWhile Char.isWhitespace
      = trimChars l
        ++ ((l.dropWhile Char.isWhitespace).reverse.takeWhile Char.isWhitespace).reverse := by
    have h4 := congrArg List.reverse h2
    rw [List.reverse_reverse, List.reverse_append] at h4
    exact h4
  calc l = l.takeWhile Char.isWhitespace ++ l.dropWhile Char.isWhitespace :=
        (List.takeWhile_append_dropWhile _ _).symm
    _ = l.takeWhile Char.isWhitespace
        ++ (trimChars l
          ++ ((l.dropWhile Char.isWhitespace).reverse.takeWhile Char.isWhitespace).reverse) := by
        rw [← h3]
    _ = l.takeWhile Char.isWhitespace ++ trimChars l
        ++ ((l.dropWhile Char.isWhitespace).reverse.takeWhile Char.isWhitespace).reverse := by
        rw [List.append_assoc]

/-- Every line produced by the split is a contiguous segment of the input. -/
theorem splitAux_decomp (text : List Char) :
    ∀ cur l, l ∈ splitAux cur text → ∃ x y, cur.reverse ++ text = x ++ l ++ y := by
  induction text with
  | nil =>
    intro cur l hl
    simp only [splitAux, List.mem_singleton] at hl
    exact ⟨[], [], by simp [hl]⟩
  | cons c cs ih =>
    intro cur l hl
    by_cases hc : c = '\n'
    · simp only [splitAux, hc, if_true, List.mem_cons] at hl
      rcases hl with hl | hl
      · exact ⟨[], '\n' :: cs, by simp [hl, hc]⟩
      · obtain ⟨x, y, hxy⟩ := ih [] l (by simpa using hl)
        refine ⟨cur.reverse ++ [c] ++ x, y, ?_⟩
        simp only [List.reverse_nil, List.nil_append] at hxy
        simp [hxy, List.append_assoc]
    · simp only [splitAux, hc, if_false] at hl
      obtain ⟨x, y, hxy⟩ := ih (c :: cur) l hl
      refine ⟨x, y, ?_⟩
      simpa [List.append_assoc] using hxy

theorem splitOnNl_decomp (text l : List Char) (hl : l ∈ splitOnNl text) :
    ∃ x y, text = x ++ l ++ y := by
  have h := splitAux_decomp text [] l hl
  simpa using h

/-- A keyword occurring (case-insensitively) in the trimmed form of a line
occurs in the whole input. -/
theorem includesL_lower_of_line (kw text line : List Char)
    (hline : line ∈ splitOnNl text)
    (h : includesL kw (lowerChars (trimChars line)) = true) :
    includesL kw (lowerChars text) = true := by
  obtain ⟨x, y, hxy⟩ := splitOnNl_decomp text line hline
  obtain ⟨u, v, huv⟩ := trimChars_decomp line
  rw [huv] at hxy
  have hT : lowerChars text
      = (lowerChars x ++ lowerChars u) ++ lowerChars (trimChars line)
        ++ (lowerChars v ++ lowerChars y) := by
    rw [hxy]
    simp [lowerChars, List.append_assoc]
  rw [hT]
  exact includesL_of_parts _ _ _ _ h

/-- When no trigger keyword occurs in the trimmed line, the cursor is
unchanged. -/
theorem updateCursor_of_no_kw (cur : Cursor) (tl : List Char)
    (h : ∀ kw ∈ triggerKeywords, includesL kw (lowerChars tl) = false) :
    updateCursor cur tl = cur := by
  have h1 := h "optimization".toList (by simp [triggerKeywords])
  have h2 := h "optimize".toList (by simp [triggerKeywords])
  have h3 := h "warning".toList (by simp [triggerKeywords])
  have h4 := h "caution".toList (by simp [triggerKeywords])
  have h5 := h "recommend".toList (by simp [triggerKeywords])
  have h6 := h "suggest".toList (by simp [triggerKeywords])
  have g1 : ¬((includesL "optimization".toList (lowerChars tl)
      || includesL "optimize".toList (lowerChars tl)) = true) := by
    intro hc
    rw [h1, h2] at hc
    exact absurd hc (by decide)
  have g2 : ¬((includesL "warning".toList (lowerChars tl)
      || includesL "caution".toList (lowerChars tl)) = true) := by
    intro hc
    rw [h3, h4] at hc
    exact absurd hc (by decide)
  have g3 : ¬((includesL "recommend".toList (lowerChars tl)
      || includesL "suggest".toList (lowerChars tl)) = true) := by
    intro hc
    rw [h5, h6] at hc
    exact absurd hc (by decide)
  simp only [updateCursor]
  rw [if_neg g1, if_neg g2, if_neg g3]

/-- The scan loop never touches the three list fields, and never moves the
cursor, while no line contains a trigger keyword. -/
theorem foldl_lineStep_no_kw (ls : List (List Char))
    (hls : ∀ line ∈ ls, ∀ kw ∈ triggerKeywords,
      includesL kw (lowerChars (trimChars line)) = false) :
    ∀ secs : AnalysisSections,
      (ls.foldl lineStep (Cursor.summary, secs)).1 = Cursor.summary ∧
      (ls.foldl lineStep (Cursor.summary, secs)).2.optimizations = secs.optimizations ∧
      (ls.foldl lineStep (Cursor.summary, secs)).2.warnings = secs.warnings ∧
      (ls.foldl lineStep (Cursor.summary, secs)).2.recommendations = secs.recommendations := by
  induction ls with
  | nil => intro secs; simp
  | cons line rest ih =>
    intro secs
    have hcur : updateCursor Cursor.summary (trimChars line) = Cursor.summary :=
      updateCursor_of_no_kw _ _ (hls line (by simp))
    have hstep : ∃ secs' : AnalysisSections,
        lineStep (Cursor.summary, secs) line = (Cursor.summary, secs') ∧
        secs'.optimizations = secs.optimizations ∧
        secs'.warnings = secs.warnings ∧
        secs'.recommendations = secs.recommendations := by
      by_cases hb : isBulletLine (trimChars line) = true
      · exact ⟨secs, by simp [lineStep, hcur, hb], rfl, rfl, rfl⟩
      · by_cases hlen : 0 < (trimChars line).length
        · exact ⟨{ secs with summary := secs.summary
              ++ (if secs.summary.isEmpty then [] else [' ']) ++ trimChars line },
            by simp [lineStep, hcur, hb, hlen], rfl, rfl, rfl⟩
        · exact ⟨secs, by simp [lineStep, hcur, hb, hlen], rfl, rfl, rfl⟩
    obtain ⟨secs', heq, ho, hw, hr⟩ := hstep
    have hrest := ih (fun l hl => hls l (List.mem_cons_of_mem _ hl)) secs'
    refine ⟨?_, ?_, ?_, ?_⟩
    · rw [List.foldl_cons, heq]; exact hrest.1
    · rw [List.foldl_cons, heq, hrest.2.1, ho]
    · rw [List.foldl_cons, heq, hrest.2.2.1, hw]
    · rw [List.foldl_cons, heq, hrest.2.2.2, hr]

/-- C6: when none of the six trigger keywords occurs (case-insensitively)
anywhere in the input, the classifier returns empty `optimizations`,
`warnings` and `recommendations`, and `summary` equal to the original,
unmodified input exactly. -/
theorem classify_no_triggers (text : List Char)
    (h : ∀ kw ∈ triggerKeywords, includesL kw (lowerChars text) = false) :
    parseAnalysis text =
      { summary := text, optimizations := [], warnings := [],
        recommendations := [] } := by
  have hlines : ∀ line ∈ (splitOnNl text).filter (fun l => !(trimChars l).isEmpty),
      ∀ kw ∈ triggerKeywords, includesL kw (lowerChars (trimChars line)) = false := by
    intro line hline kw hkw
    have hmem : line ∈ splitOnNl text := List.mem_of_mem_filter hline
    by_contra hcontra
    have htrue : includesL kw (lowerChars (trimChars line)) = true := by
      cases hval : includesL kw (lowerChars (trimChars line)) with
      | false => exact absurd hval hcontra
      | true => rfl
    have := includesL_lower_of_line kw text line hmem htrue
    rw [h kw hkw] at this
    exact absurd this (by decide)
  have hfold := foldl_lineStep_no_kw
    ((splitOnNl text).filter (fun l => !(trimChars l).isEmpty)) hlines ⟨[], [], [], []⟩
  simp only [parseAnalysis]
  rw [hfold.2.1, hfold.2.2.1, hfold.2.2.2]
  simp

/-- Witness input for C6: a narrative with no trigger keyword. -/
def noTriggerText : List Char := "hello\nworld".toList

/-- Witness for C6 at the concrete input `noTriggerText`. -/
theorem classify_no_triggers_witness :
    (∀ kw ∈ triggerKeywords, includesL kw (lowerChars noTriggerText) = false) ∧
    parseAnalysis noTriggerText =
      { summary := noTriggerText, optimizations := [], warnings := [],
        recommendations := [] } :=
  ⟨by decide, classify_no_triggers noTriggerText (by decide)⟩

/-- C2 counterexample input: a keyword line followed by a glyph-bullet line.
The glyph-bullet marker in the source is four code units long, while the code
strips `substring(2)`, so the appended item keeps the trailing two marker
characters. -/
def glyphBulletInput : List Char :=
  "optimization:\n".toList ++ glyphMarker ++ "use an index".toList

/-- C2 counterexample: on a line whose trimmed form starts with the
(non-ASCII) glyph bullet marker followed by the content "use an index", the
classifier appends "¢ use an index" (the last two code units of the
four-code-unit marker survive), not the remainder "use an index" after the
marker — so the claim that exactly the marker is stripped and the remainder
appended is false.  Moreover a genuine bullet glyph U+2022 followed by a
space is not recognized as a bullet marker at all: that line is dropped and
nothing is appended. -/
theorem bullet_glyph_counterexample :
    startsWithL glyphMarker (trimChars (glyphMarker ++ "use an index".toList)) = true ∧
    (parseAnalysis glyphBulletInput).optimizations
        = [[Char.ofNat 0xA2, ' '] ++ "use an index".toList] ∧
    [[Char.ofNat 0xA2, ' '] ++ "use an index".toList] ≠ ["use an index".toList] ∧
    (parseAnalysis ("optimization:\n".toList
        ++ [Char.ofNat 0x2022, ' '] ++ "use an index".toList)).optimizations = [] := by
  refine ⟨by decide, by decide, by decide, by decide⟩

/-- C2 (amended): for every line whose trimmed form starts with a bullet
marker (the two-character "- " or the four-code-unit glyph marker), the
classifier strips exactly the first two code units of the trimmed line
(`substring(2)`) — the whole marker for "- " lines, only half of it for
glyph lines — and appends the remainder to the list named by the cursor
when that cursor is optimizations, warnings or recommendations; while the
cursor is still summary the bullet line is dropped entirely. -/
theorem bullet_line_step (st : Cursor × AnalysisSections) (line : List Char)
    (hb : isBulletLine (trimChars line) = true) :
    (updateCursor st.1 (trimChars line) = Cursor.optimizations →
      lineStep st line = (Cursor.optimizations,
        { st.2 with optimizations :=
            st.2.optimizations ++ [(trimChars line).drop 2] })) ∧
    (updateCursor st.1 (trimChars line) = Cursor.warnings →
      lineStep st line = (Cursor.warnings,
        { st.2 with warnings := st.2.warnings ++ [(trimChars line).drop 2] })) ∧
    (updateCursor st.1 (trimChars line) = Cursor.recommendations →
      lineStep st line = (Cursor.recommendations,
        { st.2 with recommendations :=
            st.2.recommendations ++ [(trimChars line).drop 2] })) ∧
    (updateCursor st.1 (trimChars line) = Cursor.summary →
      lineStep st line = (Cursor.summary, st.2)) := by
  refine ⟨fun hc => ?_, fun hc => ?_, fun hc => ?_, fun hc => ?_⟩ <;>
    simp [lineStep, hb, hc]

/-- Witness for the amended C2 at a concrete "- " bullet line with the
cursor on optimizations. -/
theorem bullet_line_step_witness :
    isBulletLine (trimChars ("- use an index".toList)) = true ∧
    (updateCursor Cursor.optimizations (trimChars ("- use an index".toList))
        = Cursor.optimizations →
      lineStep (Cursor.optimizations, ⟨[], [], [], []⟩) ("- use an index".toList)
        = (Cursor.optimizations,
            { summary := [], optimizations := [("- use an index".toList |> trimChars).drop 2],
              warnings := [], recommendations := [] })) :=
  ⟨by decide,
   (bullet_line_step (Cursor.optimizations, ⟨[], [], [], []⟩)
      ("- use an index".toList) (by decide)).1⟩

/-- Projection of the list field named by a cursor (empty for `summary`,
which names no list). -/
def sectionItems : Cursor → AnalysisSections → List (List Char)
  | Cursor.summary, _ => []
  | Cursor.optimizations, s => s.optimizations
  | Cursor.warnings, s => s.warnings
  | Cursor.recommendations, s => s.recommendations

/-- When some trigger keyword occurs in the line, the cursor chosen by the
keyword chain does not depend on the previous cursor. -/
theorem updateCursor_indep (cur : Cursor) (tl : List Char)
    (h : updateCursor Cursor.summary tl ≠ Cursor.summary) :
    updateCursor cur tl = updateCursor Cursor.summary tl := by
  simp only [updateCursor] at *
  split at h
  · simp_all
  · split at h
    · simp_all
    · split at h
      · simp_all
      · exact absurd rfl h

/-- C10: a line that both contains a trigger keyword and is a bullet line
first moves the cursor to the section selected by its keyword (independently
of the previous cursor) and is then itself appended, marker-stripped, as a
content item of that very section. -/
theorem keyword_bullet_line (st : Cursor × AnalysisSections) (line : List Char)
    (hk : updateCursor Cursor.summary (trimChars line) ≠ Cursor.summary)
    (hb : isBulletLine (trimChars line) = true) :
    (lineStep st line).1 = updateCursor Cursor.summary (trimChars line) ∧
    sectionItems (updateCursor Cursor.summary (trimChars line)) (lineStep st line).2
      = sectionItems (updateCursor Cursor.summary (trimChars line)) st.2
        ++ [(trimChars line).drop 2] := by
  have hind := updateCursor_indep st.1 (trimChars line) hk
  have hsteps := bullet_line_step st line hb
  cases hcase : updateCursor Cursor.summary (trimChars line) with
  | summary => exact absurd hcase hk
  | optimizations =>
    have := hsteps.1 (by rw [hind, hcase])
    rw [this]
    simp [sectionItems]
  | warnings =>
    have := hsteps.2.1 (by rw [hind, hcase])
    rw [this]
    simp [sectionItems]
  | recommendations =>
    have := hsteps.2.2.1 (by rw [hind, hcase])
    rw [this]
    simp [sectionItems]

/-- Witness for C10 at the concrete line "- optimize joins". -/
theorem keyword_bullet_line_witness :
    updateCursor Cursor.summary (trimChars ("- optimize joins".toList))
        ≠ Cursor.summary ∧
    isBulletLine (trimChars ("- optimize joins".toList)) = true ∧
    ((lineStep (Cursor.summary, ⟨[], [], [], []⟩) ("- optimize joins".toList)).1
        = updateCursor Cursor.summary (trimChars ("- optimize joins".toList)) ∧
     sectionItems (updateCursor Cursor.summary (trimChars ("- optimize joins".toList)))
        (lineStep (Cursor.summary, ⟨[], [], [], []⟩) ("- optimize joins".toList)).2
      = sectionItems (updateCursor Cursor.summary (trimChars ("- optimize joins".toList)))
          (⟨[], [], [], []⟩ : AnalysisSections)
        ++ [(trimChars ("- optimize joins".toList)).drop 2]) :=
  ⟨by decide, by decide,
   keyword_bullet_line (Cursor.summary, ⟨[], [], [], []⟩) ("- optimize joins".toList)
     (by decide) (by decide)⟩

/-! ### Conversation session: the `ChatArea` component -/

/-- One conversation turn, following the `Message` interface of `ChatArea`:
`role`, `text`, and the optional `graph_url`, `query_id`, `query_text`. -/
structure Message where
  role : String
  text : String
  graph_url : Option String := none
  query_id : Option Int := none
  query_text : Option String := none
deriving DecidableEq

/-- The success payload of the backend `/chat` response consumed by
`sendMessage` (`data.reply`, `data.graph_url`, `data.query_id`,
`data.query_text`). -/
structure ChatPayload where
  reply : String
  graph_url : Option String := none
  query_id : Option Int := none
  query_text : Option String := none
deriving DecidableEq

/-- The session state of `ChatArea`: the `messages`, `input` and `loading`
React state, plus the `selectedGraph` focus state of the graph modal. -/
structure ChatState where
  messages : List Message
  input : String
  loading : Bool
  selectedGraph : Option (String × Int)
deriving DecidableEq

/-- The initial session state: no messages, empty input, not loading, no
focused graph. -/
def initState : ChatState :=
  { messages := [], input := "", loading := false, selectedGraph := none }

/-- JS `input.trim()` on Lean strings, via the character-level model. -/
def trimS (s : String) : String := ⟨trimChars s.data⟩

/-- The `sendMessage` entry guard and user-message append:
`if (!input.trim() || loading) return;` then push the trimmed user message,
clear the input and set `loading`. -/
def submit (s : ChatState) : ChatState :=
  if ((trimS s.input == "") || s.loading) then s
  else
    { s with
      messages := s.messages ++ [{ role := "user", text := trimS s.input }],
      input := "",
      loading := true }

/-- The fixed fallback text of the catch branch of `sendMessage` (the
apostrophe is written as an explicit character). -/
def failureText : String :=
  "Sorry, I" ++ String.singleton (Char.ofNat 39)
    ++ "m having trouble connecting to the AI service. Please make sure the backend is running."

/-- Completion of a successful request: append the assistant message built
from the payload and clear `loading` (the `finally` branch).  A response
completes only while a request is outstanding — the single-flight guard of
`submit` means no response event can arrive otherwise — so on a non-loading
state the event is a no-op. -/
def responseSuccess (s : ChatState) (p : ChatPayload) : ChatState :=
  if s.loading then
    { s with
      messages := s.messages ++
        [{ role := "assistant", text := p.reply, graph_url := p.graph_url,
           query_id := p.query_id, query_text := p.query_text }],
      loading := false }
  else s

/-- The fallback assistant message appended by the catch branch: the fixed
text, and no query id, graph reference or query text. -/
def fallbackMessage : Message :=
  { role := "assistant", text := failureText,
    graph_url := none, query_id := none, query_text := none }

/-- Completion of a failed request (network error, or a non-ok response
re-thrown into the catch branch): append the fixed fallback assistant
message — the cause is only logged, never shown — and clear `loading`. -/
def responseFailure (s : ChatState) ( _cause : String) : ChatState :=
  if s.loading then
    { s with
      messages := s.messages ++ [fallbackMessage],
      loading := false }
  else s

/-- The events driving a session: typing into the input box (`setInput`),
pressing send (`sendMessage`), and completion of the outstanding request
with success or failure. -/
inductive ChatEvent
  | typeInput (t : String)
  | submit
  | success (p : ChatPayload)
  | failure (cause : String)
deriving DecidableEq

/-- One transition of the session state machine. -/
def step (s : ChatState) : ChatEvent → ChatState
  | ChatEvent.typeInput t => { s with input := t }
  | ChatEvent.submit => submit s
  | ChatEvent.success p => responseSuccess s p
  | ChatEvent.failure c => responseFailure s c

/-- The session state reached from the empty session by a sequence of
events. -/
def run (es : List ChatEvent) : ChatState := es.foldl step initState

/-- Number of user messages in a timeline. -/
def userCount (ms : List Message) : Nat := ms.countP (fun m => m.role == "user")

/-- Number of assistant messages in a timeline. -/
def assistantCount (ms : List Message) : Nat :=
  ms.countP (fun m => m.role == "assistant")

theorem userCount_append (ms : List Message) (x : Message) :
    userCount (ms ++ [x]) = userCount ms + (if x.role == "user" then 1 else 0) := by
  simp [userCount, List.countP_append, List.countP_cons, List.countP_nil]

theorem assistantCount_append (ms : List Message) (x : Message) :
    assistantCount (ms ++ [x])
      = assistantCount ms + (if x.role == "assistant" then 1 else 0) := by
  simp [assistantCount, List.countP_append, List.countP_cons, List.countP_nil]

/-- C4: submitting while a request is already outstanding, or with an input
that is empty after trimming, produces no message and leaves the whole
session state — message list, input buffer, loading flag and focus state —
unchanged: a no-op, not an error. -/
theorem submit_noop (s : ChatState)
    (h : s.loading = true ∨ trimS s.input = "") : submit s = s := by
  rcases h with h | h
  · simp [submit, h]
  · simp [submit, h]

/-- Concrete busy state used to witness `submit_noop`. -/
def busyState : ChatState :=
  { messages := [{ role := "user", text := "analyze query 22" }],
    input := "second question", loading := true, selectedGraph := none }

/-- Witness for C4 at the concrete busy state. -/
theorem submit_noop_witness :
    (busyState.loading = true ∨ trimS busyState.input = "") ∧
    submit busyState = busyState :=
  ⟨Or.inl (by decide), submit_noop busyState (Or.inl (by decide))⟩

/-- C3: a transport failure while a request is outstanding appends exactly
one fallback assistant message whose text is the fixed
service-unreachable sentence, carrying no query id, graph or query text
(in particular the underlying cause — universally quantified here — never
reaches the message), and returns the session to the submittable
non-loading state with input and focus untouched. -/
theorem failure_fallback (s : ChatState) (cause : String)
    (h : s.loading = true) :
    (responseFailure s cause).messages = s.messages ++ [fallbackMessage] ∧
    (responseFailure s cause).loading = false ∧
    (responseFailure s cause).input = s.input ∧
    (responseFailure s cause).selectedGraph = s.selectedGraph := by
  simp [responseFailure, fallbackMessage, h]

/-- Concrete awaiting state used to witness `failure_fallback`. -/
def awaitingState : ChatState :=
  { messages := [{ role := "user", text := "show graph for query 1" }],
    input := "", loading := true, selectedGraph := none }

/-- Witness for C3 at the concrete awaiting state and a concrete cause. -/
theorem failure_fallback_witness :
    awaitingState.loading = true ∧
    ((responseFailure awaitingState "ECONNREFUSED").messages
        = awaitingState.messages ++ [fallbackMessage] ∧
    (responseFailure awaitingState "ECONNREFUSED").loading = false ∧
    (responseFailure awaitingState "ECONNREFUSED").input = awaitingState.input ∧
    (responseFailure awaitingState "ECONNREFUSED").selectedGraph
        = awaitingState.selectedGraph) :=
  ⟨by decide, failure_fallback awaitingState "ECONNREFUSED" (by decide)⟩

/-- The counting invariant of the session: while loading, the user count
exceeds the assistant count by exactly one; while idle, they agree. -/
def countInv (s : ChatState) : Prop :=
  (s.loading = true ∧ userCount s.messages = assistantCount s.messages + 1) ∨
  (s.loading = false ∧ userCount s.messages = assistantCount s.messages)

theorem step_countInv (s : ChatState) (e : ChatEvent) (h : countInv s) :
    countInv (step s e) := by
  cases e with
  | typeInput t =>
    rcases h with ⟨h1, h2⟩ | ⟨h1, h2⟩
    · exact Or.inl ⟨h1, h2⟩
    · exact Or.inr ⟨h1, h2⟩
  | submit =>
    simp only [step, submit]
    by_cases hc : ((trimS s.input == "") || s.loading) = true
    · simpa [hc] using h
    · have hld : s.loading = false := by
        cases hl : s.loading with
        | false => rfl
        | true => exact absurd (by simp [hl]) hc
      rcases h with ⟨h1, _⟩ | ⟨_, h2⟩
      · rw [hld] at h1; exact absurd h1 (by decide)
      · refine Or.inl ⟨by simp [hc], ?_⟩
        simp [hc, userCount_append, assistantCount_append, h2]
  | success p =>
    simp only [step, responseSuccess]
    by_cases hl : s.loading = true
    · rcases h with ⟨_, h2⟩ | ⟨h1, _⟩
      · refine Or.inr ⟨by simp [hl], ?_⟩
        simp [hl, userCount_append, assistantCount_append, h2]
      · rw [hl] at h1; exact absurd h1 (by decide)
    · have hld : s.loading = false := by
        cases hval : s.loading with
        | false => rfl
        | true => exact absurd hval hl
      simpa [hld] using h
  | failure c =>
    simp only [step, responseFailure]
    by_cases hl : s.loading = true
    · rcases h with ⟨_, h2⟩ | ⟨h1, _⟩
      · refine Or.inr ⟨by simp [hl], ?_⟩
        simp [hl, userCount_append, assistantCount_append, fallbackMessage, h2]
      · rw [hl] at h1; exact absurd h1 (by decide)
    · have hld : s.loading = false := by
        cases hval : s.loading with
        | false => rfl
        | true => exact absurd hval hl
      simpa [hld] using h

theorem foldl_countInv (es : List ChatEvent) :
    ∀ s : ChatState, countInv s → countInv (es.foldl step s) := by
  induction es with
  | nil => intro s h; simpa using h
  | cons e rest ih =>
    intro s h
    rw [List.foldl_cons]
    exact ih (step s e) (step_countInv s e h)

/-- C5: over every sequence of events starting from the empty session, the
assistant messages never outnumber the user messages, and the session is
awaiting a response exactly when the number of answered user messages falls
one short — i.e. the most recent user message has not yet received its
assistant message. -/
theorem session_single_flight (es : List ChatEvent) :
    assistantCount (run es).messages ≤ userCount (run es).messages ∧
    ((run es).loading = true ↔
      assistantCount (run es).messages < userCount (run es).messages) := by
  have hinv : countInv (run es) :=
    foldl_countInv es initState (Or.inr ⟨rfl, rfl⟩)
  rcases hinv with ⟨h1, h2⟩ | ⟨h1, h2⟩
  · constructor
    · omega
    · constructor
      · intro _; omega
      · intro _; exact h1
  · constructor
    · omega
    · constructor
      · intro hcontra; rw [h1] at hcontra; exact absurd hcontra (by decide)
      · intro hlt; omega

/-- Modelled from the spec: the backend `/chat` endpoint that produces the
success payload is not among the repository sources (only its frontend
caller `sendMessage` is).  Per the spec, a graph is always anchored to a
specific query, so a success payload carries a query identifier whenever it
carries a graph reference. -/
def ChatPayload.anchored (p : ChatPayload) : Prop :=
  p.graph_url.isSome = true → p.query_id.isSome = true

/-- The per-message invariant of C1: a graph reference is present only if a
query identifier is present. -/
def graphAnchored (m : Message) : Prop :=
  m.graph_url.isSome = true → m.query_id.isSome = true

theorem anchored_append (ms : List Message) (x : Message)
    (hs : ∀ m ∈ ms, graphAnchored m) (hx : graphAnchored x) :
    ∀ m ∈ ms ++ [x], graphAnchored m := by
  intro m hm
  rcases List.mem_append.mp hm with h | h
  · exact hs m h
  · rw [List.mem_singleton.mp h]; exact hx

theorem step_graphAnchored (s : ChatState) (e : ChatEvent)
    (hp : ∀ p, e = ChatEvent.success p → p.anchored)
    (hs : ∀ m ∈ s.messages, graphAnchored m) :
    ∀ m ∈ (step s e).messages, graphAnchored m := by
  cases e with
  | typeInput t => simpa [step] using hs
  | submit =>
    simp only [step, submit]
    by_cases hc : ((trimS s.input == "") || s.loading) = true
    · simpa [hc] using hs
    · simp only [hc, if_false]
      exact anchored_append s.messages _ hs (by simp [graphAnchored])
  | success p =>
    simp only [step, responseSuccess]
    by_cases hl : s.loading = true
    · simp only [hl, if_true]
      exact anchored_append s.messages _ hs (hp p rfl)
    · have hld : s.loading = false := by
        cases hval : s.loading with
        | false => rfl
        | true => exact absurd hval hl
      simpa [hld] using hs
  | failure c =>
    simp only [step, responseFailure]
    by_cases hl : s.loading = true
    · simp only [hl, if_true]
      exact anchored_append s.messages _ hs (by simp [graphAnchored, fallbackMessage])
    · have hld : s.loading = false := by
        cases hval : s.loading with
        | false => rfl
        | true => exact absurd hval hl
      simpa [hld] using hs

theorem foldl_graphAnchored (es : List ChatEvent) :
    ∀ s : ChatState,
      (∀ p : ChatPayload, ChatEvent.success p ∈ es → p.anchored) →
      (∀ m ∈ s.messages, graphAnchored m) →
      ∀ m ∈ (es.foldl step s).messages, graphAnchored m := by
  induction es with
  | nil => intro s _ hs; simpa using hs
  | cons e rest ih =>
    intro s hp hs
    rw [List.foldl_cons]
    refine ih (step s e) (fun p hmem => hp p (List.mem_cons_of_mem _ hmem)) ?_
    exact step_graphAnchored s e (fun p hpe => hp p (hpe ▸ List.mem_cons_self _ _)) hs

/-- C1: starting from the empty session, provided each success payload
delivered by the backend is anchored (it carries a query identifier whenever
it carries a graph reference — a property of the backend, modelled from the
spec), every message ever held in the session has its graph reference
present only if its query identifier is present; each appending operation
(submit, success, failure) preserves that invariant. -/
theorem messages_graph_anchored (es : List ChatEvent)
    (hp : ∀ p : ChatPayload, ChatEvent.success p ∈ es → p.anchored) :
    ∀ m ∈ (run es).messages, graphAnchored m :=
  foldl_graphAnchored es initState hp (by simp [initState])

/-- Concrete event sequence used to witness `messages_graph_anchored`: one
full round trip with a graph-carrying payload. -/
def wEvents : List ChatEvent :=
  [ChatEvent.typeInput "analyze query 22", ChatEvent.submit,
   ChatEvent.success
     { reply := "Here is the analysis.", graph_url := some "/graphs/22.html",
       query_id := some 22, query_text := some "SELECT 1" }]

/-- Witness for C1 at the concrete event sequence `wEvents`. -/
theorem messages_graph_anchored_witness :
    (∀ p : ChatPayload, ChatEvent.success p ∈ wEvents → p.anchored) ∧
    ∀ m ∈ (run wEvents).messages, graphAnchored m := by
  have hp : ∀ p : ChatPayload, ChatEvent.success p ∈ wEvents → p.anchored := by
    intro p hmem
    simp [wEvents] at hmem
    rw [hmem]
    intro _
    rfl
  exact ⟨hp, messages_graph_anchored wEvents hp⟩

end AIQuerySolver
